import Mathlib

/-!
Shallow embedding of the fms-js finite-state-machine engine
(`src/fsm.js` and the richer documented variant in the repository:
classes `FSM`, `State`, `FSMBuilder`, `StateBuilder`).

Modelling conventions, chosen to follow the JavaScript source:

* `Value` models the dynamic JavaScript values the engine actually
  manipulates: `null`, `undefined`, booleans, (integer) numbers, strings
  and arrays.  Host objects (functions, plain objects) that never flow
  through the checked paths are not represented.
* Property lookup on the handler table uses the JavaScript `in` operator,
  which consults the prototype chain; `objectPrototypeMembers` lists the
  members every object literal inherits from `Object.prototype`.  The
  inherited member actually invoked is modelled by `inheritedHandler`:
  only `toString`/`toLocaleString` have a return value
  (`"[object Object]"`) that later code can observe; the remaining
  inherited members return host values outside `Value` and are modelled
  coarsely as `undefined`.
* The state table `_states` is an object literal keyed by the declared
  state names.  Looking up a name without an own entry either yields
  `undefined` or an inherited `Object.prototype` function; in both cases
  the subsequent `.fire(...)` call throws before anything observable
  happens, so the lookup is modelled as failing for every name without an
  own entry (`JsError.unknownState`, the spec's name for this failure).
* Thrown strings / TypeErrors are modelled by the structured `JsError`;
  each constructor carries the data interpolated into the thrown message.
* Side effects are modelled by an explicit trace: listener invocations
  (listeners are pure observers here; the engine passes them exactly
  `(oldState, newState)` and no data), synchronous runs of callbacks
  drained from the `execute` queue, and `setTimeout` scheduling of
  callbacks drained from the `executeOut` queue.  A callback (`Cb`) is
  identified by an id and may itself call `execute`/`executeOut`, which
  is all a callback can do to a sealed machine besides re-entering `fire`
  (re-entrant `fire` from callbacks/handlers is outside this model).
* The comparison `oldState != this._currentState` guarding the listener
  loop is JavaScript loose inequality; on the values compared here it is
  modelled by structural inequality (they agree on strings, the domain of
  state names).
-/

namespace FmsJs

/-- Dynamic JavaScript values handled by the engine. -/
inductive Value where
  | vNull
  | vUndefined
  | vBool (b : Bool)
  | vNum (n : Int)
  | vStr (s : String)
  | vList (xs : List Value)

mutual

/-- Structural boolean equality on `Value` (hand-rolled: `Value` nests
`List Value`). -/
def Value.beq : Value → Value → Bool
  | .vNull, .vNull => true
  | .vUndefined, .vUndefined => true
  | .vBool a, .vBool b => a == b
  | .vNum a, .vNum b => a == b
  | .vStr a, .vStr b => a == b
  | .vList a, .vList b => Value.beqList a b
  | _, _ => false

def Value.beqList : List Value → List Value → Bool
  | [], [] => true
  | a :: as, b :: bs => Value.beq a b && Value.beqList as bs
  | _, _ => false

end

mutual

theorem Value.beq_iff : (a b : Value) → (Value.beq a b = true ↔ a = b)
  | .vNull, b => by cases b <;> simp [Value.beq]
  | .vUndefined, b => by cases b <;> simp [Value.beq]
  | .vBool x, b => by cases b <;> simp [Value.beq]
  | .vNum x, b => by cases b <;> simp [Value.beq]
  | .vStr x, b => by cases b <;> simp [Value.beq]
  | .vList xs, .vNull => by simp [Value.beq]
  | .vList xs, .vUndefined => by simp [Value.beq]
  | .vList xs, .vBool y => by simp [Value.beq]
  | .vList xs, .vNum y => by simp [Value.beq]
  | .vList xs, .vStr y => by simp [Value.beq]
  | .vList xs, .vList ys => by
      simp [Value.beq, Value.beqList_iff xs ys]

theorem Value.beqList_iff : (a b : List Value) → (Value.beqList a b = true ↔ a = b)
  | [], [] => by simp [Value.beqList]
  | [], _ :: _ => by simp [Value.beqList]
  | _ :: _, [] => by simp [Value.beqList]
  | x :: xs, y :: ys => by
      simp [Value.beqList, Value.beq_iff x y, Value.beqList_iff xs ys]

end

instance : DecidableEq Value :=
  fun a b => decidable_of_iff (Value.beq a b = true) (Value.beq_iff a b)

mutual

/-- JavaScript `ToString` of an array element inside `Array.prototype.join`:
`null` and `undefined` become the empty string there. -/
def Value.elemKey : Value → String
  | .vNull => ""
  | .vUndefined => ""
  | .vBool b => cond b "true" "false"
  | .vNum n => toString n
  | .vStr s => s
  | .vList xs => Value.keyList xs

def Value.keyList : List Value → String
  | [] => ""
  | [x] => x.elemKey
  | x :: y :: xs => x.elemKey ++ "," ++ Value.keyList (y :: xs)

end

/-- JavaScript `ToString`, as used when a value is coerced to a property
key or interpolated into a thrown message. -/
def Value.toKey : Value → String
  | .vNull => "null"
  | .vUndefined => "undefined"
  | v => v.elemKey

/-- JavaScript loose `v == null`: true exactly for `null`/`undefined`. -/
def Value.isNullish : Value → Bool
  | .vNull => true
  | .vUndefined => true
  | _ => false

/-- JavaScript `v.length`: a number for strings and arrays, `undefined`
(here `none`) for the other modelled values. -/
def Value.jsLength : Value → Option Nat
  | .vStr s => some s.length
  | .vList xs => some xs.length
  | _ => none

/-- JavaScript `v[i]` for a numeric index: array element, one-character
string for strings, `undefined` otherwise or out of range. -/
def Value.jsIndex : Value → Nat → Value
  | .vList xs, i => (xs[i]?).getD .vUndefined
  | .vStr s, i => ((s.toList[i]?).map fun c => Value.vStr (String.singleton c)).getD .vUndefined
  | _, _ => .vUndefined

/-- The guard `result == null || result.length < 2` of `FSM.fire`.
Note that `undefined < 2` is `false` in JavaScript, so a value without a
`length` property passes this check. -/
def malformedResult (ret : Value) : Bool :=
  ret.isNullish || (match ret.jsLength with
    | some n => decide (n < 2)
    | none => false)

/-- A deferred callback: an identity plus the callbacks it passes to
`execute` (`execs`) and `executeOut` (`outs`) when it runs. -/
inductive Cb where
  | mk (id : Nat) (execs : List Cb) (outs : List Cb)

def Cb.id : Cb → Nat
  | .mk i _ _ => i

def Cb.execs : Cb → List Cb
  | .mk _ e _ => e

def Cb.outs : Cb → List Cb
  | .mk _ _ o => o

/-- What running an event handler produces: its return value plus the
callbacks it registered through `execute` / `executeOut` while running.
(Handlers run with `this` bound to the machine; other side effects of
handler bodies are application code outside the engine.) -/
structure HandlerResult where
  ret : Value
  execs : List Cb
  outs : List Cb

/-- An event handler: receives the current data and the extra `fire`
arguments. -/
def Handler := Value → List Value → HandlerResult

/-- The structured form of the strings / TypeErrors thrown by the engine,
carrying the data interpolated into each message. -/
inductive JsError where
  /-- thrown string `'The function fire must be called at least with the event name'` -/
  | invalidInvocation
  /-- thrown string `'The event "<e>" does not exist in state "<s>"'` -/
  | unknownEvent (eventName : String) (stateName : String)
  /-- thrown string `'All event handlers must return the next state and data. ...'` -/
  | malformedTransition (eventName : String) (stateName : String)
  /-- the TypeError raised by `this._states[cs].fire` when `cs` has no own
  entry in the state table (the spec's lazy `UnknownState`) -/
  | unknownState (stateName : String)
deriving DecidableEq

/-- A built `State`: its name and the own properties of its `_handlers`
object literal, in insertion order.  (The back reference `_fsm` only
serves as the `this` binding of handlers and is not represented.) -/
structure State where
  name : String
  handlers : List (String × Handler)

/-- Members that `eventName in this._handlers` finds on the prototype
chain of the `_handlers` object literal even when no handler was
registered. -/
def objectPrototypeMembers : List String :=
  ["constructor", "toString", "toLocaleString", "valueOf", "hasOwnProperty",
   "isPrototypeOf", "propertyIsEnumerable", "__proto__",
   "__defineGetter__", "__defineSetter__", "__lookupGetter__", "__lookupSetter__"]

/-- The inherited `Object.prototype` member invoked when an unregistered
event name is found on the prototype chain.  `toString`/`toLocaleString`
applied to the machine return `"[object Object]"`; the other members
return host values outside `Value`, modelled as `undefined`.  None of
them touch the deferred queues. -/
def inheritedHandler (name : String) : Handler :=
  fun _ _ =>
    if name = "toString" ∨ name = "toLocaleString" then
      ⟨.vStr "[object Object]", [], []⟩
    else
      ⟨.vUndefined, [], []⟩

/-- Lookup `eventName in this._handlers` followed by the member read: own
handlers first (insertion order, duplicates impossible on a JS object),
then the `Object.prototype` chain. -/
def State.lookupHandler (st : State) (key : String) : Option Handler :=
  match st.handlers.lookup key with
  | some h => some h
  | none =>
    if key ∈ objectPrototypeMembers then some (inheritedHandler key)
    else none

/-- The built machine (`class FSM`).  Change listeners receive the two
state names and nothing else, so they are modelled as pure observers:
only their number is needed (invocations are recorded in the trace by
index in registration order). -/
structure FSM where
  currentState : Value
  currentData : Value
  onStateChangedListeners : Nat
  states : List (String × State)
  toExecute : List Cb
  toExecuteOut : List Cb

/-- Observable events of one `fire` call, in execution order. -/
inductive TraceEv where
  /-- invocation `this._onStateChangedListeners[index](oldState, newState)` -/
  | listenerCall (index : Nat) (oldState newState : Value)
  /-- synchronous run of a drained `execute` callback -/
  | cbRun (id : Nat)
  /-- call of `setTimeout(cb, 0)` on a drained `executeOut` callback -/
  | schedOut (id : Nat)
deriving DecidableEq

/-- Outcome of `FSM.fire`: the machine afterwards, the trace of
observable calls it made, and the error it threw, if any. -/
structure FireResult where
  fsm : FSM
  trace : List TraceEv
  error : Option JsError

/-- Model of `State.fire(args, currentData)`: `args` is never `null` (it comes
from `Array.prototype.slice`), so the `args == null || args.length < 1`
guard is the empty-list case. -/
def State.fire (st : State) (args : List Value) (currentData : Value) :
    Except JsError HandlerResult :=
  match args with
  | [] => .error .invalidInvocation
  | eventName :: rest =>
    match st.lookupHandler eventName.toKey with
    | some h => .ok (h currentData rest)
    | none => .error (.unknownEvent eventName.toKey st.name)

/-- Running one drained callback: it can only push further callbacks onto
the (freshly swapped) queues. -/
def runCb (m : FSM) (cb : Cb) : FSM :=
  { m with toExecute := m.toExecute ++ cb.execs,
           toExecuteOut := m.toExecuteOut ++ cb.outs }

/-- The drain loop of `FSM.fire`: runs the swapped-out `execute` queue in
order, recording each run. -/
def drainExecute (m : FSM) : List Cb → FSM × List TraceEv
  | [] => (m, [])
  | cb :: rest =>
    let m1 := runCb m cb
    let r := drainExecute m1 rest
    (r.1, .cbRun cb.id :: r.2)

/-- Model of `FSM.fire(...)`, following the source line by line:
state lookup, delegation to `State.fire` (whose `execute`/`executeOut`
registrations land on the queues before the result is inspected), the
malformed-result guard, the commit of `result[0]`/`result[1]`, the
listener loop guarded by `oldState != newState`, the swap of both queues
for empty ones, the synchronous drain of the old `execute` queue and the
`setTimeout` scheduling of the old `executeOut` queue. -/
def FSM.fire (m : FSM) (args : List Value) : FireResult :=
  let oldState := m.currentState
  match m.states.lookup oldState.toKey with
  | none => ⟨m, [], some (.unknownState oldState.toKey)⟩
  | some st =>
    match st.fire args m.currentData with
    | .error e => ⟨m, [], some e⟩
    | .ok hr =>
      let mq : FSM := { m with toExecute := m.toExecute ++ hr.execs,
                               toExecuteOut := m.toExecuteOut ++ hr.outs }
      if malformedResult hr.ret then
        ⟨mq, [], some (.malformedTransition (args.headD .vUndefined).toKey oldState.toKey)⟩
      else
        let newState := hr.ret.jsIndex 0
        let newData := hr.ret.jsIndex 1
        let m1 : FSM := { mq with currentState := newState, currentData := newData }
        let listenerTr :=
          if oldState ≠ newState then
            (List.range m.onStateChangedListeners).map fun i =>
              TraceEv.listenerCall i oldState newState
          else []
        let toExec := m1.toExecute
        let toOut := m1.toExecuteOut
        let m2 : FSM := { m1 with toExecute := [], toExecuteOut := [] }
        let drained := drainExecute m2 toExec
        ⟨drained.1, listenerTr ++ drained.2 ++ toOut.map (fun c => TraceEv.schedOut c.id), none⟩

/-- Model of `FSM.execute(callback)`. -/
def FSM.execute (m : FSM) (cb : Cb) : FSM :=
  { m with toExecute := m.toExecute ++ [cb] }

/-- Model of `FSM.executeOut(callback)`. -/
def FSM.executeOut (m : FSM) (cb : Cb) : FSM :=
  { m with toExecuteOut := m.toExecuteOut ++ [cb] }

/-- One hexadecimal digit, as used by `JSON.stringify` for control
characters. -/
def hexDigit (n : Nat) : Char :=
  if n < 10 then Char.ofNat (48 + n) else Char.ofNat (87 + n)

/-- The escaping `JSON.stringify` applies inside string literals. -/
def jsonEscapeChar (c : Char) : String :=
  if c = '"' then "\\\""
  else if c = '\\' then "\\\\"
  else if c.toNat = 8 then "\\b"
  else if c.toNat = 12 then "\\f"
  else if c = '\n' then "\\n"
  else if c = '\r' then "\\r"
  else if c = '\t' then "\\t"
  else if c.toNat < 32 then
    "\\u00" ++ String.singleton (hexDigit (c.toNat / 16))
      ++ String.singleton (hexDigit (c.toNat % 16))
  else String.singleton c

/-- A JSON string literal. -/
def jsonQuote (s : String) : String :=
  "\"" ++ String.join (s.toList.map jsonEscapeChar) ++ "\""

mutual

/-- Serialization `JSON.stringify(v, null, ' ')` of a `Value` at indentation `ind`:
`none` for `undefined` (omitted as an object member, `null` inside
arrays). -/
def renderValueJson : String → Value → Option String
  | _, .vUndefined => none
  | _, .vNull => some "null"
  | _, .vBool b => some (cond b "true" "false")
  | _, .vNum n => some (toString n)
  | _, .vStr s => some (jsonQuote s)
  | _, .vList [] => some "[]"
  | ind, .vList (x :: xs) =>
      some ("[\n" ++ renderItems (ind ++ " ") (x :: xs) ++ "\n" ++ ind ++ "]")

/-- The element lines of a JSON array, each prefixed with the (already
incremented) indentation and joined by `",\n"`. -/
def renderItems : String → List Value → String
  | _, [] => ""
  | ind, [x] => ind ++ ((renderValueJson ind x).getD "null")
  | ind, x :: y :: xs =>
      ind ++ ((renderValueJson ind x).getD "null") ++ ",\n" ++ renderItems ind (y :: xs)

end

/-- The structural value `State.describe()` returns: the state name and
the own event names of its handler table, in insertion order (handler
bodies are never serialized). -/
structure StateDescription where
  name : String
  handlers : List String
deriving DecidableEq

/-- The structural value `FSM.describe` builds: keys `"Current state"`
(an object with `"state"` and `"data"`), `"onStateChanged listeners"`
(the listener count) and `"states"`. -/
structure FSMDescription where
  currentState : Value
  currentData : Value
  listenerCount : Nat
  states : List StateDescription
deriving DecidableEq

/-- One serialized object member at indentation `ind`; `none` when the
value is `undefined` (`JSON.stringify` skips such members). -/
def renderMember (ind : String) (key : String) (v : Value) : Option String :=
  (renderValueJson ind v).map fun r => ind ++ jsonQuote key ++ ": " ++ r

/-- The serialized `"Current state"` object. -/
def renderCurrentStateObj (ind : String) (st d : Value) : String :=
  match ([renderMember (ind ++ " ") "state" st,
          renderMember (ind ++ " ") "data" d]).filterMap id with
  | [] => "\x7b\x7d"
  | ms => "\x7b\n" ++ String.intercalate ",\n" ms ++ "\n" ++ ind ++ "\x7d"

/-- A serialized array of strings. -/
def renderStrArray (ind : String) (l : List String) : String :=
  (renderValueJson ind (Value.vList (l.map Value.vStr))).getD "[]"

/-- One serialized state descriptor. -/
def renderStateDescription (ind : String) (d : StateDescription) : String :=
  "\x7b\n"
  ++ ind ++ " " ++ jsonQuote "name" ++ ": " ++ jsonQuote d.name ++ ",\n"
  ++ ind ++ " " ++ jsonQuote "handlers" ++ ": " ++ renderStrArray (ind ++ " ") d.handlers
  ++ "\n" ++ ind ++ "\x7d"

/-- The serialized `"states"` array. -/
def renderStatesArray (ind : String) : List StateDescription → String
  | [] => "[]"
  | ds =>
      "[\n"
      ++ String.intercalate ",\n"
           (ds.map fun d => (ind ++ " ") ++ renderStateDescription (ind ++ " ") d)
      ++ "\n" ++ ind ++ "]"

/-- Serialization `JSON.stringify(result, null, ' ')` of the describe record. -/
def renderDescription (d : FSMDescription) : String :=
  "\x7b\n"
  ++ " " ++ jsonQuote "Current state" ++ ": "
      ++ renderCurrentStateObj " " d.currentState d.currentData ++ ",\n"
  ++ " " ++ jsonQuote "onStateChanged listeners" ++ ": " ++ toString d.listenerCount ++ ",\n"
  ++ " " ++ jsonQuote "states" ++ ": " ++ renderStatesArray " " d.states
  ++ "\n\x7d"

/-- Model of `State.describe()`. -/
def State.describe (st : State) : StateDescription :=
  ⟨st.name, st.handlers.map Prod.fst⟩

/-- The record `FSM.describe` assembles before choosing the output form
(`for (let state in this._states)` over the own keys in insertion
order). -/
def FSM.describeData (m : FSM) : FSMDescription :=
  ⟨m.currentState, m.currentData, m.onStateChangedListeners,
   m.states.map fun p => State.describe p.2⟩

/-- The two output forms of `FSM.describe`: a `JSON.stringify` text or
the `Object.freeze`-d plain record (freezing is modelled by the
immutability of the returned value). -/
inductive DescribeResult where
  | text (s : String)
  | frozen (d : FSMDescription)
deriving DecidableEq

/-- Model of `FSM.describe(stringify)`: `stringify == null || stringify` selects
the textual form (so text is the default), otherwise the frozen plain
record is returned. -/
def FSM.describe (m : FSM) (stringify : Option Bool) : DescribeResult :=
  let result := m.describeData
  if stringify.getD true then .text (renderDescription result)
  else .frozen result

/-! ## General lemmas about the transition pipeline -/

/-- Closed form of the drain loop: every callback of the swapped-out
queue runs once, in order, and the callbacks they register end up on the
fresh queues, in order. -/
theorem drainExecute_eq (m : FSM) (cbs : List Cb) :
    drainExecute m cbs =
      ({ m with toExecute := m.toExecute ++ (cbs.map Cb.execs).flatten,
                toExecuteOut := m.toExecuteOut ++ (cbs.map Cb.outs).flatten },
       cbs.map fun c => TraceEv.cbRun c.id) := by
  induction cbs generalizing m with
  | nil => simp [drainExecute]
  | cons c rest ih => simp [drainExecute, runCb, ih]

/-- Closed form of a successful `fire`: the looked-up handler returned a
result that passes the malformed-result guard. -/
theorem fire_success_eq (m : FSM) (st : State) (ev : Value) (rest : List Value)
    (h : Handler) (ret : Value) (execs outs : List Cb)
    (hst : m.states.lookup m.currentState.toKey = some st)
    (hh : st.lookupHandler ev.toKey = some h)
    (hres : h m.currentData rest = ⟨ret, execs, outs⟩)
    (hml : malformedResult ret = false) :
    FSM.fire m (ev :: rest) =
      ⟨⟨ret.jsIndex 0, ret.jsIndex 1, m.onStateChangedListeners, m.states,
        ((m.toExecute ++ execs).map Cb.execs).flatten,
        ((m.toExecute ++ execs).map Cb.outs).flatten⟩,
       (if m.currentState ≠ ret.jsIndex 0 then
          (List.range m.onStateChangedListeners).map fun i =>
            TraceEv.listenerCall i m.currentState (ret.jsIndex 0)
        else [])
        ++ ((m.toExecute ++ execs).map fun c => TraceEv.cbRun c.id)
        ++ ((m.toExecuteOut ++ outs).map fun c => TraceEv.schedOut c.id),
       none⟩ := by
  simp [FSM.fire, State.fire, hst, hh, hres, hml, drainExecute_eq]

/-- An array of at least two elements passes the malformed-result guard. -/
theorem malformedResult_pair (s d : Value) (tl : List Value) :
    malformedResult (.vList (s :: d :: tl)) = false := by
  simp [malformedResult, Value.isNullish, Value.jsLength]

/-! ## Claims -/

def c3Handler : Handler := fun _ _ => ⟨.vList [.vStr "ghost", .vNum 7], [], []⟩

def c3State : State := ⟨"a", [("go", c3Handler)]⟩

def c3Machine : FSM := ⟨.vStr "a", .vNum 0, 0, [("a", c3State)], [], []⟩

/-- C3: when the handler of a `fire` call returns a pair `[S, D]`, `fire`
commits exactly `S` as the new `currentState` and exactly `D` as the new
`currentData` and succeeds, with no hypothesis whatsoever on `S` being a
key of the state table. -/
theorem fire_commits_returned_pair (m : FSM) (st : State) (ev : Value)
    (rest : List Value) (h : Handler) (s d : Value) (tl : List Value)
    (execs outs : List Cb)
    (hst : m.states.lookup m.currentState.toKey = some st)
    (hh : st.lookupHandler ev.toKey = some h)
    (hres : h m.currentData rest = ⟨.vList (s :: d :: tl), execs, outs⟩) :
    (FSM.fire m (ev :: rest)).fsm.currentState = s ∧
    (FSM.fire m (ev :: rest)).fsm.currentData = d ∧
    (FSM.fire m (ev :: rest)).error = none := by
  rw [fire_success_eq m st ev rest h _ execs outs hst hh hres (malformedResult_pair s d tl)]
  refine ⟨?_, ?_, rfl⟩ <;> simp [Value.jsIndex]

/-- Witness for C3 at a concrete machine: the committed state `"ghost"`
was never declared in the state table. -/
theorem fire_commits_returned_pair_witness :
    c3Machine.states.lookup "ghost" = none ∧
    (FSM.fire c3Machine [Value.vStr "go"]).fsm.currentState = Value.vStr "ghost" ∧
    (FSM.fire c3Machine [Value.vStr "go"]).fsm.currentData = Value.vNum 7 ∧
    (FSM.fire c3Machine [Value.vStr "go"]).error = none := by
  have h := fire_commits_returned_pair c3Machine c3State (Value.vStr "go") []
    c3Handler (Value.vStr "ghost") (Value.vNum 7) [] [] [] rfl rfl rfl
  exact ⟨rfl, h.1, h.2.1, h.2.2⟩

def c4Handler : Handler := fun _ _ => ⟨.vList [.vStr "b", .vNull], [], []⟩

def c4State : State := ⟨"a", [("go", c4Handler)]⟩

def c4Machine : FSM := ⟨.vStr "a", .vNull, 2, [("a", c4State)], [], []⟩

/-- C4: when the handler returns `[s, d]`, the change listeners are
invoked exactly when `s` differs from the previous `currentState`; in
that case every listener runs, in registration order, receiving exactly
`(oldState, s)` (the `listenerCall` event carries the two state names and
no data). -/
theorem fire_change_listener_iff (m : FSM) (st : State) (ev : Value)
    (rest : List Value) (h : Handler) (s d : Value) (tl : List Value)
    (execs outs : List Cb)
    (hst : m.states.lookup m.currentState.toKey = some st)
    (hh : st.lookupHandler ev.toKey = some h)
    (hres : h m.currentData rest = ⟨.vList (s :: d :: tl), execs, outs⟩) :
    (FSM.fire m (ev :: rest)).trace =
      (if m.currentState ≠ s then
         (List.range m.onStateChangedListeners).map fun i =>
           TraceEv.listenerCall i m.currentState s
       else [])
      ++ ((m.toExecute ++ execs).map fun c => TraceEv.cbRun c.id)
      ++ ((m.toExecuteOut ++ outs).map fun c => TraceEv.schedOut c.id) := by
  rw [fire_success_eq m st ev rest h _ execs outs hst hh hres (malformedResult_pair s d tl)]
  simp [Value.jsIndex]

/-- Witness for C4: two listeners, state change from `"a"` to `"b"` —
both listeners are called, in order, with `("a", "b")`. -/
theorem fire_change_listener_iff_witness :
    (FSM.fire c4Machine [Value.vStr "go"]).trace =
      [TraceEv.listenerCall 0 (Value.vStr "a") (Value.vStr "b"),
       TraceEv.listenerCall 1 (Value.vStr "a") (Value.vStr "b")] := by
  rw [fire_change_listener_iff c4Machine c4State (Value.vStr "go") [] c4Handler
    (Value.vStr "b") Value.vNull [] [] [] rfl rfl rfl]
  decide

theorem count_cbRun_listenerPart (x : Nat) (old s : Value) (n : Nat) (p : Prop)
    [Decidable p] :
    ((if p then (List.range n).map fun i => TraceEv.listenerCall i old s
      else []) : List TraceEv).count (TraceEv.cbRun x) = 0 := by
  split <;> simp [List.count_eq_zero]

theorem count_schedOut_listenerPart (x : Nat) (old s : Value) (n : Nat) (p : Prop)
    [Decidable p] :
    ((if p then (List.range n).map fun i => TraceEv.listenerCall i old s
      else []) : List TraceEv).count (TraceEv.schedOut x) = 0 := by
  split <;> simp [List.count_eq_zero]

theorem count_cbRun_schedPart (x : Nat) (l : List Cb) :
    (l.map fun c => TraceEv.schedOut c.id).count (TraceEv.cbRun x) = 0 := by
  simp [List.count_eq_zero]

theorem count_schedOut_runPart (x : Nat) (l : List Cb) :
    (l.map fun c => TraceEv.cbRun c.id).count (TraceEv.schedOut x) = 0 := by
  simp [List.count_eq_zero]

theorem count_cbRun_runPart (x : Nat) (l : List Cb) :
    (l.map fun c => TraceEv.cbRun c.id).count (TraceEv.cbRun x) = (l.map Cb.id).count x := by
  have hmm : (l.map fun c => TraceEv.cbRun c.id) = (l.map Cb.id).map TraceEv.cbRun := by
    rw [List.map_map]
    rfl
  rw [hmm, List.count_map_of_injective]
  intro a b hab
  injection hab

theorem count_schedOut_schedPart (x : Nat) (l : List Cb) :
    (l.map fun c => TraceEv.schedOut c.id).count (TraceEv.schedOut x)
      = (l.map Cb.id).count x := by
  have hmm : (l.map fun c => TraceEv.schedOut c.id) = (l.map Cb.id).map TraceEv.schedOut := by
    rw [List.map_map]
    rfl
  rw [hmm, List.count_map_of_injective]
  intro a b hab
  injection hab

def c5Inner : Cb := .mk 2 [] []

def c5Registered : Cb := .mk 1 [c5Inner] []

def c5Queued : Cb := .mk 0 [] []

def c5Handler : Handler := fun _ _ => ⟨.vList [.vStr "b", .vNull], [c5Registered], []⟩

def c5State : State := ⟨"a", [("go", c5Handler)]⟩

def c5Machine : FSM := ⟨.vStr "a", .vNull, 0, [("a", c5State)], [c5Queued], []⟩

/-- C5: on a successful `fire`, the queued and handler-registered
`execute` callbacks all run synchronously within that call, in
registration order and strictly after listener notification (the trace
equation); with distinct ids each runs exactly once; and — the queue
being swapped for an empty one before draining — a callback registered
by `execute` during the drain is left on the machine's queue for the
next `fire` rather than run in the same drain. -/
theorem fire_execute_drain (m : FSM) (st : State) (ev : Value)
    (rest : List Value) (h : Handler) (s d : Value) (tl : List Value)
    (execs outs : List Cb)
    (hst : m.states.lookup m.currentState.toKey = some st)
    (hh : st.lookupHandler ev.toKey = some h)
    (hres : h m.currentData rest = ⟨.vList (s :: d :: tl), execs, outs⟩)
    (hids : ((m.toExecute ++ execs).map Cb.id).Nodup) :
    ((FSM.fire m (ev :: rest)).trace =
       (if m.currentState ≠ s then
          (List.range m.onStateChangedListeners).map fun i =>
            TraceEv.listenerCall i m.currentState s
        else [])
       ++ ((m.toExecute ++ execs).map fun c => TraceEv.cbRun c.id)
       ++ ((m.toExecuteOut ++ outs).map fun c => TraceEv.schedOut c.id)) ∧
    (∀ c ∈ m.toExecute ++ execs,
       (FSM.fire m (ev :: rest)).trace.count (TraceEv.cbRun c.id) = 1) ∧
    ((FSM.fire m (ev :: rest)).fsm.toExecute =
       ((m.toExecute ++ execs).map Cb.execs).flatten) ∧
    (∀ c ∈ m.toExecute ++ execs, ∀ c' ∈ c.execs,
       c' ∈ (FSM.fire m (ev :: rest)).fsm.toExecute) := by
  have He := fire_success_eq m st ev rest h _ execs outs hst hh hres
    (malformedResult_pair s d tl)
  have htr : (FSM.fire m (ev :: rest)).trace =
      (if m.currentState ≠ s then
         (List.range m.onStateChangedListeners).map fun i =>
           TraceEv.listenerCall i m.currentState s
       else [])
      ++ ((m.toExecute ++ execs).map fun c => TraceEv.cbRun c.id)
      ++ ((m.toExecuteOut ++ outs).map fun c => TraceEv.schedOut c.id) := by
    rw [He]
    simp [Value.jsIndex]
  have hq : (FSM.fire m (ev :: rest)).fsm.toExecute =
      ((m.toExecute ++ execs).map Cb.execs).flatten := by
    rw [He]
  refine ⟨htr, ?_, hq, ?_⟩
  · intro c hc
    rw [htr, List.count_append, List.count_append, count_cbRun_listenerPart,
      count_cbRun_runPart, count_cbRun_schedPart,
      List.count_eq_one_of_mem hids (List.mem_map_of_mem Cb.id hc)]
  · intro c hc c' hc'
    rw [hq]
    exact List.mem_flatten.mpr ⟨c.execs, List.mem_map_of_mem Cb.execs hc, hc'⟩

/-- Witness for C5: `c5Registered` (registered through `execute` by the
handler) runs exactly once within the `fire` call, and the callback it
registers during the drain (`c5Inner`) is deferred to the machine's
queue instead of running in the same drain. -/
theorem fire_execute_drain_witness :
    (FSM.fire c5Machine [Value.vStr "go"]).trace.count (TraceEv.cbRun 1) = 1 ∧
    c5Inner ∈ (FSM.fire c5Machine [Value.vStr "go"]).fsm.toExecute := by
  have h := fire_execute_drain c5Machine c5State (Value.vStr "go") [] c5Handler
    (Value.vStr "b") Value.vNull [] [c5Registered] [] rfl rfl rfl (by decide)
  refine ⟨h.2.1 c5Registered ?_, h.2.2.2 c5Registered ?_ c5Inner ?_⟩
  · exact List.mem_append_right _ (List.mem_singleton_self _)
  · exact List.mem_append_right _ (List.mem_singleton_self _)
  · exact List.mem_singleton_self _

def c6Out : Cb := .mk 5 [] []

def c6Exec : Cb := .mk 7 [] []

def c6Handler : Handler := fun _ _ => ⟨.vList [.vStr "b", .vNull], [c6Exec], [c6Out]⟩

def c6State : State := ⟨"a", [("go", c6Handler)]⟩

def c6Machine : FSM := ⟨.vStr "a", .vNull, 0, [("a", c6State)], [], []⟩

/-- C6: on a successful `fire`, every queued or handler-registered
`executeOut` callback is handed to `setTimeout` exactly once and is
never run synchronously within the call (no `cbRun` of it appears in the
trace); `executeOut` registrations made by drained callbacks go to the
machine's fresh out-queue, to be scheduled by a later `fire`. -/
theorem fire_executeOut_schedule (m : FSM) (st : State) (ev : Value)
    (rest : List Value) (h : Handler) (s d : Value) (tl : List Value)
    (execs outs : List Cb)
    (hst : m.states.lookup m.currentState.toKey = some st)
    (hh : st.lookupHandler ev.toKey = some h)
    (hres : h m.currentData rest = ⟨.vList (s :: d :: tl), execs, outs⟩)
    (houtIds : ((m.toExecuteOut ++ outs).map Cb.id).Nodup)
    (hdisj : ∀ c ∈ m.toExecuteOut ++ outs, c.id ∉ (m.toExecute ++ execs).map Cb.id) :
    (∀ c ∈ m.toExecuteOut ++ outs,
       (FSM.fire m (ev :: rest)).trace.count (TraceEv.schedOut c.id) = 1 ∧
       TraceEv.cbRun c.id ∉ (FSM.fire m (ev :: rest)).trace) ∧
    ((FSM.fire m (ev :: rest)).fsm.toExecuteOut =
       ((m.toExecute ++ execs).map Cb.outs).flatten) := by
  have He := fire_success_eq m st ev rest h _ execs outs hst hh hres
    (malformedResult_pair s d tl)
  have htr : (FSM.fire m (ev :: rest)).trace =
      (if m.currentState ≠ s then
         (List.range m.onStateChangedListeners).map fun i =>
           TraceEv.listenerCall i m.currentState s
       else [])
      ++ ((m.toExecute ++ execs).map fun c => TraceEv.cbRun c.id)
      ++ ((m.toExecuteOut ++ outs).map fun c => TraceEv.schedOut c.id) := by
    rw [He]
    simp [Value.jsIndex]
  refine ⟨?_, by rw [He]⟩
  intro c hc
  constructor
  · rw [htr, List.count_append, List.count_append, count_schedOut_listenerPart,
      count_schedOut_runPart, count_schedOut_schedPart,
      List.count_eq_one_of_mem houtIds (List.mem_map_of_mem Cb.id hc)]
  · rw [htr]
    intro hmem
    rcases List.mem_append.mp hmem with hmem1 | hS
    · rcases List.mem_append.mp hmem1 with hL | hR
      · revert hL
        split <;> simp
      · rcases List.mem_map.mp hR with ⟨a, ha, hae⟩
        injection hae with hid
        exact hdisj c hc (hid ▸ List.mem_map_of_mem Cb.id ha)
    · rcases List.mem_map.mp hS with ⟨a, _, hae⟩
      simp at hae

/-- Witness for C6: the handler registers `c6Out` through `executeOut`;
it is scheduled exactly once and never run synchronously within the
`fire` call. -/
theorem fire_executeOut_schedule_witness :
    (FSM.fire c6Machine [Value.vStr "go"]).trace.count (TraceEv.schedOut 5) = 1 ∧
    TraceEv.cbRun 5 ∉ (FSM.fire c6Machine [Value.vStr "go"]).trace := by
  have h := fire_executeOut_schedule c6Machine c6State (Value.vStr "go") [] c6Handler
    (Value.vStr "b") Value.vNull [] [c6Exec] [c6Out] rfl rfl rfl (by decide)
    (by
      intro c hc
      rcases List.mem_singleton.mp hc with rfl
      decide)
  exact h.1 c6Out (List.mem_singleton_self _)

/-- A `fire` against a current state without an own entry in the state
table throws immediately, before the arguments are even inspected. -/
theorem fire_unknown_state (m : FSM) (args : List Value)
    (hlk : m.states.lookup m.currentState.toKey = none) :
    FSM.fire m args = ⟨m, [], some (.unknownState m.currentState.toKey)⟩ := by
  simp [FSM.fire, hlk]

def c7Handler : Handler := fun _ _ => ⟨.vList [.vStr "ghost", .vNum 9], [], []⟩

def c7State : State := ⟨"a", [("go", c7Handler)]⟩

def c7Machine : FSM := ⟨.vStr "a", .vNum 0, 0, [("a", c7State)], [], []⟩

/-- C7: committing a next state that has no entry in the state table
does not fail the committing `fire` call; the `UnknownState` error is
raised by the next `fire` call made while that state is current,
whatever its arguments. -/
theorem fire_lazy_unknown_state (m : FSM) (st : State) (ev : Value)
    (rest : List Value) (h : Handler) (s2 : String) (d : Value) (tl : List Value)
    (execs outs : List Cb)
    (hst : m.states.lookup m.currentState.toKey = some st)
    (hh : st.lookupHandler ev.toKey = some h)
    (hres : h m.currentData rest = ⟨.vList (.vStr s2 :: d :: tl), execs, outs⟩)
    (hmiss : m.states.lookup s2 = none) :
    ((FSM.fire m (ev :: rest)).error = none) ∧
    ((FSM.fire m (ev :: rest)).fsm.currentState = .vStr s2) ∧
    (∀ args2, (FSM.fire (FSM.fire m (ev :: rest)).fsm args2).error =
       some (.unknownState s2)) := by
  have He := fire_success_eq m st ev rest h _ execs outs hst hh hres
    (malformedResult_pair _ _ _)
  have hcs : (FSM.fire m (ev :: rest)).fsm.currentState = .vStr s2 := by
    rw [He]
    simp [Value.jsIndex]
  refine ⟨by rw [He], hcs, ?_⟩
  intro args2
  have hlk : (FSM.fire m (ev :: rest)).fsm.states.lookup
      (FSM.fire m (ev :: rest)).fsm.currentState.toKey = none := by
    rw [hcs]
    rw [show (FSM.fire m (ev :: rest)).fsm.states = m.states from by rw [He]]
    exact hmiss
  rw [fire_unknown_state _ args2 hlk, hcs]
  rfl

/-- Witness for C7: the handler sends the machine to the undeclared
state `"ghost"` without error; the next `fire` raises `UnknownState`. -/
theorem fire_lazy_unknown_state_witness :
    (FSM.fire c7Machine [Value.vStr "go"]).error = none ∧
    (FSM.fire (FSM.fire c7Machine [Value.vStr "go"]).fsm [Value.vStr "go"]).error =
      some (JsError.unknownState "ghost") := by
  have h := fire_lazy_unknown_state c7Machine c7State (Value.vStr "go") [] c7Handler
    "ghost" (Value.vNum 9) [] [] [] rfl rfl rfl rfl
  exact ⟨h.1, h.2.2 [Value.vStr "go"]⟩

def c1State : State := ⟨"a", []⟩

def c1Machine : FSM := ⟨.vStr "a", .vNum 0, 0, [("a", c1State)], [], []⟩

/-- C1 counterexample: state `"a"` registered no handler at all, yet
firing the event `"toString"` does not raise `UnknownEvent` — the `in`
lookup finds `Object.prototype.toString`, whose string return value is
then committed: `currentState` becomes `"["` and `currentData` `"o"`. -/
theorem fire_unregistered_event_cex :
    (FSM.fire c1Machine [Value.vStr "toString"]).error = none ∧
    (FSM.fire c1Machine [Value.vStr "toString"]).fsm.currentState = Value.vStr "[" ∧
    (FSM.fire c1Machine [Value.vStr "toString"]).fsm.currentData = Value.vStr "o" :=
  ⟨rfl, rfl, rfl⟩

/-- C1 (amended): firing an event name for which the current state
registered no handler *and which is not a member of `Object.prototype`*
raises `UnknownEvent` identifying both the event name and the state
name, and leaves the machine — `currentState` and `currentData`
included — entirely unchanged. -/
theorem fire_unregistered_event_unknownEvent (m : FSM) (st : State) (ev : Value)
    (rest : List Value)
    (hst : m.states.lookup m.currentState.toKey = some st)
    (hown : st.handlers.lookup ev.toKey = none)
    (hproto : ev.toKey ∉ objectPrototypeMembers) :
    FSM.fire m (ev :: rest) = ⟨m, [], some (.unknownEvent ev.toKey st.name)⟩ := by
  have hl : st.lookupHandler ev.toKey = none := by
    simp [State.lookupHandler, hown, hproto]
  simp [FSM.fire, State.fire, hst, hl]

/-- Witness for C1 (amended) at a concrete machine and the unregistered,
non-prototype event name `"zzz"`. -/
theorem fire_unregistered_event_unknownEvent_witness :
    FSM.fire c1Machine [Value.vStr "zzz"] =
      ⟨c1Machine, [], some (JsError.unknownEvent "zzz" "a")⟩ :=
  fire_unregistered_event_unknownEvent c1Machine c1State (Value.vStr "zzz") []
    rfl rfl (by decide)

def c2Handler : Handler := fun _ _ => ⟨.vBool true, [], []⟩

def c2State : State := ⟨"a", [("go", c2Handler)]⟩

def c2Machine : FSM := ⟨.vStr "a", .vNum 0, 0, [("a", c2State)], [], []⟩

/-- C2 counterexample: a handler returning the boolean `true` — neither
null/undefined nor a pair — does not make `fire` raise
`MalformedTransition`: `true.length` is `undefined` and `undefined < 2`
is `false`, so the guard passes and `true[0]`/`true[1]` (both
`undefined`) are committed. -/
theorem fire_malformed_guard_cex :
    (FSM.fire c2Machine [Value.vStr "go"]).error = none ∧
    (FSM.fire c2Machine [Value.vStr "go"]).fsm.currentState = Value.vUndefined ∧
    (FSM.fire c2Machine [Value.vStr "go"]).fsm.currentData = Value.vUndefined :=
  ⟨rfl, rfl, rfl⟩

/-- C2 (amended): a handler return value of null or undefined, or an
array of fewer than two elements, makes `fire` raise
`MalformedTransition` naming the offending event and state, and a
two-element array never raises it.  (Non-array return values without a
`length` property, such as booleans or numbers, are not rejected — see
the counterexample.) -/
theorem fire_malformed_guard (m : FSM) (st : State) (ev : Value) (rest : List Value)
    (h : Handler) (ret : Value) (execs outs : List Cb)
    (hst : m.states.lookup m.currentState.toKey = some st)
    (hh : st.lookupHandler ev.toKey = some h)
    (hres : h m.currentData rest = ⟨ret, execs, outs⟩) :
    ((ret = .vNull ∨ ret = .vUndefined ∨ ∃ l, ret = .vList l ∧ l.length < 2) →
       (FSM.fire m (ev :: rest)).error =
         some (.malformedTransition ev.toKey m.currentState.toKey)) ∧
    (∀ x y tl, ret = .vList (x :: y :: tl) →
       (FSM.fire m (ev :: rest)).error = none) := by
  constructor
  · intro hcase
    have hml : malformedResult ret = true := by
      rcases hcase with rfl | rfl | ⟨l, rfl, hlen⟩
      · rfl
      · rfl
      · simp [malformedResult, Value.isNullish, Value.jsLength, hlen]
    simp [FSM.fire, State.fire, hst, hh, hres, hml]
  · rintro x y tl rfl
    rw [fire_success_eq m st ev rest h _ execs outs hst hh hres
      (malformedResult_pair x y tl)]

def c2wHandler : Handler := fun _ _ => ⟨.vNull, [], []⟩

def c2wState : State := ⟨"a", [("go", c2wHandler)]⟩

def c2wMachine : FSM := ⟨.vStr "a", .vNum 0, 0, [("a", c2wState)], [], []⟩

/-- Witness for C2 (amended): a handler returning `null` triggers
`MalformedTransition` naming the event `"go"` and the state `"a"`. -/
theorem fire_malformed_guard_witness :
    (FSM.fire c2wMachine [Value.vStr "go"]).error =
      some (JsError.malformedTransition "go" "a") := by
  have h := fire_malformed_guard c2wMachine c2wState (Value.vStr "go") [] c2wHandler
    Value.vNull [] [] rfl rfl rfl
  exact h.1 (Or.inl rfl)

def c9State : State := ⟨"a", []⟩

def c9Machine : FSM := ⟨.vStr "a", .vNum 0, 0, [("a", c9State)], [], []⟩

/-- C9: for an event name that is a member of `Object.prototype`, the
`in`-operator lookup on the handler table succeeds even though the state
registered no handler: the inherited member is returned as the handler
to invoke, and `fire` never raises `UnknownEvent` for such a name. -/
theorem fire_prototype_member_lookup (m : FSM) (st : State) (name : String)
    (rest : List Value)
    (hst : m.states.lookup m.currentState.toKey = some st)
    (hown : st.handlers.lookup name = none)
    (hproto : name ∈ objectPrototypeMembers) :
    (st.lookupHandler name = some (inheritedHandler name)) ∧
    (∀ a b, (FSM.fire m (Value.vStr name :: rest)).error ≠
       some (.unknownEvent a b)) := by
  have hl : st.lookupHandler name = some (inheritedHandler name) := by
    simp [State.lookupHandler, hown, hproto]
  refine ⟨hl, ?_⟩
  intro a b
  by_cases hn : name = "toString" ∨ name = "toLocaleString"
  · have hres : inheritedHandler name m.currentData rest =
        ⟨.vStr "[object Object]", [], []⟩ := by
      simp [inheritedHandler, hn]
    have He := fire_success_eq m st (Value.vStr name) rest (inheritedHandler name)
      _ [] [] hst hl hres (by decide)
    rw [He]
    simp
  · have hres : inheritedHandler name m.currentData rest = ⟨.vUndefined, [], []⟩ := by
      simp [inheritedHandler, hn]
    have hl' : st.lookupHandler (Value.vStr name).toKey = some (inheritedHandler name) := hl
    simp [FSM.fire, State.fire, hst, hl', hres, malformedResult, Value.isNullish]

/-- Witness for C9 at the inherited member `"toString"` on a state with
no registered handlers. -/
theorem fire_prototype_member_lookup_witness :
    (c9State.lookupHandler "toString" = some (inheritedHandler "toString")) ∧
    (FSM.fire c9Machine [Value.vStr "toString"]).error ≠
      some (JsError.unknownEvent "toString" "a") := by
  have h := fire_prototype_member_lookup c9Machine c9State "toString" [] rfl rfl
    (by decide)
  exact ⟨h.1, h.2 "toString" "a"⟩

/-- A successful `fire` runs every callback already on the `execute`
queue and schedules every callback already on the `executeOut` queue. -/
theorem fire_success_runs_queued (m : FSM) (st : State) (ev : Value)
    (rest : List Value) (h : Handler) (ret : Value) (execs outs : List Cb)
    (hst : m.states.lookup m.currentState.toKey = some st)
    (hh : st.lookupHandler ev.toKey = some h)
    (hres : h m.currentData rest = ⟨ret, execs, outs⟩)
    (hml : malformedResult ret = false) :
    (∀ c ∈ m.toExecute, TraceEv.cbRun c.id ∈ (FSM.fire m (ev :: rest)).trace) ∧
    (∀ c ∈ m.toExecuteOut, TraceEv.schedOut c.id ∈ (FSM.fire m (ev :: rest)).trace) := by
  have He := fire_success_eq m st ev rest h ret execs outs hst hh hres hml
  constructor
  · intro c hc
    rw [He]
    exact List.mem_append_left _
      (List.mem_append_right _
        (List.mem_map_of_mem _ (List.mem_append_left _ hc)))
  · intro c hc
    rw [He]
    exact List.mem_append_right _
      (List.mem_map_of_mem _ (List.mem_append_left _ hc))

def c8QueuedE : Cb := .mk 3 [] []

def c8QueuedO : Cb := .mk 4 [] []

def c8Handler : Handler := fun _ _ => ⟨.vList [.vStr "a", .vNum 1], [], []⟩

def c8State : State := ⟨"a", [("go", c8Handler)]⟩

def c8Machine : FSM := ⟨.vStr "a", .vNum 0, 0, [("a", c8State)], [c8QueuedE], [c8QueuedO]⟩

/-- C8: when `fire` throws, nothing observable happened (empty trace, so
no listener ran and nothing was drained or scheduled), `currentState`
and `currentData` are unchanged, and both deferred queues retain every
already-queued callback (the `execute`/`executeOut` registrations a
handler made before a `MalformedTransition` throw may sit appended after
them); the next `fire` that succeeds then runs the retained `execute`
callbacks and schedules the retained `executeOut` callbacks. -/
theorem fire_error_preserves (m : FSM) (args : List Value) (e : JsError)
    (he : (FSM.fire m args).error = some e) :
    (FSM.fire m args).trace = [] ∧
    (FSM.fire m args).fsm.currentState = m.currentState ∧
    (FSM.fire m args).fsm.currentData = m.currentData ∧
    (∃ q, (FSM.fire m args).fsm.toExecute = m.toExecute ++ q) ∧
    (∃ q, (FSM.fire m args).fsm.toExecuteOut = m.toExecuteOut ++ q) ∧
    ((FSM.fire m args).fsm.states = m.states) ∧
    ((FSM.fire m args).fsm.onStateChangedListeners = m.onStateChangedListeners) ∧
    (∀ (ev2 : Value) (rest2 : List Value) (st2 : State) (h2 : Handler)
       (ret2 : Value) (execs2 outs2 : List Cb),
       (FSM.fire m args).fsm.states.lookup
         (FSM.fire m args).fsm.currentState.toKey = some st2 →
       st2.lookupHandler ev2.toKey = some h2 →
       h2 (FSM.fire m args).fsm.currentData rest2 = ⟨ret2, execs2, outs2⟩ →
       malformedResult ret2 = false →
       (∀ c ∈ (FSM.fire m args).fsm.toExecute,
          TraceEv.cbRun c.id ∈
            (FSM.fire (FSM.fire m args).fsm (ev2 :: rest2)).trace) ∧
       (∀ c ∈ (FSM.fire m args).fsm.toExecuteOut,
          TraceEv.schedOut c.id ∈
            (FSM.fire (FSM.fire m args).fsm (ev2 :: rest2)).trace)) := by
  rcases hlk : m.states.lookup m.currentState.toKey with _ | st
  · have He : FSM.fire m args = ⟨m, [], some (.unknownState m.currentState.toKey)⟩ :=
      fire_unknown_state m args hlk
    rw [He]
    refine ⟨rfl, rfl, rfl, ⟨[], by simp⟩, ⟨[], by simp⟩, rfl, rfl, ?_⟩
    intro ev2 rest2 st2 h2 ret2 execs2 outs2 k1 k2 k3 k4
    exact fire_success_runs_queued m st2 ev2 rest2 h2 ret2 execs2 outs2 k1 k2 k3 k4
  · cases args with
    | nil =>
      have He : FSM.fire m [] = ⟨m, [], some .invalidInvocation⟩ := by
        simp [FSM.fire, State.fire, hlk]
      rw [He]
      refine ⟨rfl, rfl, rfl, ⟨[], by simp⟩, ⟨[], by simp⟩, rfl, rfl, ?_⟩
      intro ev2 rest2 st2 h2 ret2 execs2 outs2 k1 k2 k3 k4
      exact fire_success_runs_queued m st2 ev2 rest2 h2 ret2 execs2 outs2 k1 k2 k3 k4
    | cons ev rest =>
      rcases hhl : st.lookupHandler ev.toKey with _ | h
      · have He : FSM.fire m (ev :: rest) =
            ⟨m, [], some (.unknownEvent ev.toKey st.name)⟩ := by
          simp [FSM.fire, State.fire, hlk, hhl]
        rw [He]
        refine ⟨rfl, rfl, rfl, ⟨[], by simp⟩, ⟨[], by simp⟩, rfl, rfl, ?_⟩
        intro ev2 rest2 st2 h2 ret2 execs2 outs2 k1 k2 k3 k4
        exact fire_success_runs_queued m st2 ev2 rest2 h2 ret2 execs2 outs2 k1 k2 k3 k4
      · rcases hhr : h m.currentData rest with ⟨ret, execs, outs⟩
        by_cases hml : malformedResult ret = true
        · have He : FSM.fire m (ev :: rest) =
              ⟨{ m with toExecute := m.toExecute ++ execs,
                        toExecuteOut := m.toExecuteOut ++ outs }, [],
               some (.malformedTransition ev.toKey m.currentState.toKey)⟩ := by
            simp [FSM.fire, State.fire, hlk, hhl, hhr, hml]
          rw [He]
          refine ⟨rfl, rfl, rfl, ⟨execs, rfl⟩, ⟨outs, rfl⟩, rfl, rfl, ?_⟩
          intro ev2 rest2 st2 h2 ret2 execs2 outs2 k1 k2 k3 k4
          exact fire_success_runs_queued _ st2 ev2 rest2 h2 ret2 execs2 outs2 k1 k2 k3 k4
        · have hml' : malformedResult ret = false := by
            revert hml
            cases malformedResult ret <;> simp
          have He := fire_success_eq m st ev rest h ret execs outs hlk hhl hhr hml'
          rw [He] at he
          simp at he

/-- Witness for C8: an `UnknownEvent` throw leaves the machine intact and
both queued callbacks in place; the next (successful) `fire` runs the
queued `execute` callback and schedules the queued `executeOut`
callback. -/
theorem fire_error_preserves_witness :
    (FSM.fire c8Machine [Value.vStr "nope"]).trace = [] ∧
    (FSM.fire c8Machine [Value.vStr "nope"]).fsm.currentState = Value.vStr "a" ∧
    TraceEv.cbRun 3 ∈
      (FSM.fire (FSM.fire c8Machine [Value.vStr "nope"]).fsm [Value.vStr "go"]).trace ∧
    TraceEv.schedOut 4 ∈
      (FSM.fire (FSM.fire c8Machine [Value.vStr "nope"]).fsm [Value.vStr "go"]).trace := by
  have h := fire_error_preserves c8Machine [Value.vStr "nope"]
    (JsError.unknownEvent "nope" "a") rfl
  have h2 := h.2.2.2.2.2.2.2 (Value.vStr "go") [] c8State c8Handler
    (Value.vList [Value.vStr "a", Value.vNum 1]) [] [] rfl rfl rfl rfl
  exact ⟨h.1, h.2.1, h2.1 c8QueuedE (List.mem_singleton_self _),
    h2.2 c8QueuedO (List.mem_singleton_self _)⟩

/-- C10: `describe` returns the `JSON.stringify` text of the snapshot
when called with no argument or with `stringify` true (text is the
default), and the frozen plain snapshot when called with `stringify`
false; in both cases the snapshot carries the current state name, the
current data as supplied, the count of registered change listeners and,
for every declared state, its name and the list of event names it
handles. -/
theorem describe_forms (m : FSM) :
    (FSM.describe m none = .text (renderDescription (FSM.describeData m))) ∧
    (FSM.describe m (some true) = FSM.describe m none) ∧
    (FSM.describe m (some false) = .frozen (FSM.describeData m)) ∧
    ((FSM.describeData m).currentState = m.currentState) ∧
    ((FSM.describeData m).currentData = m.currentData) ∧
    ((FSM.describeData m).listenerCount = m.onStateChangedListeners) ∧
    ((FSM.describeData m).states
       = m.states.map fun p => ⟨p.2.name, p.2.handlers.map Prod.fst⟩) :=
  ⟨rfl, rfl, rfl, rfl, rfl, rfl, rfl⟩

end FmsJs
